import Mathlib

/-!
Shallow embedding of the FormBase filter-criteria compiler and record value
model, together with proofs of its specified properties.

Sources embedded:
* the PostgREST filter compiler buildFilterQuery in src/services/api.ts;
* the earlier buildFilterQuery variant (the one without the text-extraction
  accessor) kept in the repository history;
* the OPERATORS label table in src/screens/FilterBuilderScreen.tsx;
* the per-field validation and save-time value coercion in
  src/screens/RecordCreateScreen.tsx, together with a model of the
  ECMAScript parseFloat semantics those functions rely on.

TypeScript strings are modelled as Lean String, arrays as List, optional
record members as Option, numbers arising from parseFloat as an exact
variant type (NaN, signed infinity, or a rational); rounding of decimal
literals to binary64 is not modelled, which is faithful for every input
used in the theorems below (all values involved are small integers).
-/

namespace FormBase

/-- FilterOperator from src/types: the PostgREST operator tokens the UI
produces directly. -/
inductive FilterOperator where
  | ilike
  | like
  | eq
  | gt
  | lt
  | gte
  | lte
deriving DecidableEq, Repr

/-- FilterLogic from src/types. -/
inductive FilterLogic where
  | and
  | or
deriving DecidableEq, Repr

/-- FilterCriteria from src/types; the logic member is optional there, so it
is an Option here. -/
structure FilterCriteria where
  field : String
  operator : FilterOperator
  value : String
  logic : Option FilterLogic := none
deriving DecidableEq, Repr

/-- The operator token exactly as it is interpolated into the query string
(the TypeScript value is already that string). -/
def opToken : FilterOperator → String
  | .ilike => "ilike"
  | .like => "like"
  | .eq => "eq"
  | .gt => "gt"
  | .lt => "lt"
  | .gte => "gte"
  | .lte => "lte"

/-- The queryValue computation repeated in both branches of buildFilterQuery:
ilike wraps the raw value in wildcards, like appends one trailing wildcard,
every other operator passes the raw value through unchanged. -/
def queryValue (op : FilterOperator) (v : String) : String :=
  if op = FilterOperator.ilike then "*" ++ v ++ "*"
  else if op = FilterOperator.like then v ++ "*"
  else v

/-- One rendered condition of the fast (no-or) path of buildFilterQuery,
using the structured JSONB accessor. -/
def singleTerm (f : FilterCriteria) : String :=
  "values->" ++ (f.field ++ "." ++ opToken f.operator ++ "." ++ queryValue f.operator f.value)

/-- One rendered condition as pushed into a group by the general path of
buildFilterQuery, using the text-extraction JSONB accessor. -/
def orTerm (f : FilterCriteria) : String :=
  "values->>" ++ (f.field ++ "." ++ opToken f.operator ++ "." ++ queryValue f.operator f.value)

/-- The hasOr scan of buildFilterQuery: some criterion before the last one
has logic equal to or. -/
def hasOr (filters : List FilterCriteria) : Bool :=
  filters.enum.any fun p =>
    decide (p.1 < filters.length - 1) && decide (p.2.logic = some FilterLogic.or)

/-- One iteration of the forEach loop of the general path of buildFilterQuery:
push the rendered condition onto the current group, then close the group
when the connector is not or and this is not the last criterion. -/
def groupStep (n : Nat) (st : List (List String) × List String)
    (p : Nat × FilterCriteria) : List (List String) × List String :=
  let current := st.2 ++ [orTerm p.2]
  if p.2.logic = some FilterLogic.or ∧ p.1 < n - 1 then (st.1, current)
  else if p.1 < n - 1 then (st.1 ++ [current], [])
  else (st.1, current)

/-- The grouping loop of buildFilterQuery including the final flush of the
still-open group. -/
def buildGroups (filters : List FilterCriteria) : List (List String) :=
  let st := filters.enum.foldl (groupStep filters.length) ([], [])
  if st.2.length > 0 then st.1 ++ [st.2] else st.1

/-- Replacement of the first occurrence of a pattern in a character list,
modelling JavaScript String.prototype.replace with a string pattern. -/
def replaceFirstAux (pat repl : List Char) : List Char → List Char
  | [] => if pat = [] then repl else []
  | c :: cs =>
    if pat.isPrefixOf (c :: cs) then repl ++ (c :: cs).drop pat.length
    else c :: replaceFirstAux pat repl cs

/-- JavaScript s.replace(pat, repl) for a plain string pattern: only the
first occurrence is replaced. -/
def jsReplaceFirst (s pat repl : String) : String :=
  ⟨replaceFirstAux pat.data repl.data s.data⟩

/-- Rendering of one closed group in buildFilterQuery: a single condition is
rewritten back to the structured accessor, a larger group is wrapped in an
or=() disjunction. -/
def renderGroup (group : List String) : String :=
  match group with
  | [s] => jsReplaceFirst s "values->>" "values->"
  | g => "or=(" ++ String.intercalate "," g ++ ")"

/-- buildFilterQuery from src/services/api.ts. -/
def buildFilterQuery (filters : List FilterCriteria) : String :=
  if filters.length = 0 then ""
  else if ¬ hasOr filters then
    String.intercalate "&" (filters.map singleTerm)
  else
    String.intercalate "&" ((buildGroups filters).map renderGroup)

/-- The loop body of the earlier buildFilterQuery variant: identical to
groupStep except that grouped conditions also use the structured accessor. -/
def groupStepOld (n : Nat) (st : List (List String) × List String)
    (p : Nat × FilterCriteria) : List (List String) × List String :=
  let current := st.2 ++ [singleTerm p.2]
  if p.2.logic = some FilterLogic.or ∧ p.1 < n - 1 then (st.1, current)
  else if p.1 < n - 1 then (st.1 ++ [current], [])
  else (st.1, current)

/-- The grouping loop of the earlier variant. -/
def buildGroupsOld (filters : List FilterCriteria) : List (List String) :=
  let st := filters.enum.foldl (groupStepOld filters.length) ([], [])
  if st.2.length > 0 then st.1 ++ [st.2] else st.1

/-- Group rendering of the earlier variant: a singleton group is emitted
verbatim, a larger group is wrapped in or=(). -/
def renderGroupOld (group : List String) : String :=
  match group with
  | [s] => s
  | g => "or=(" ++ String.intercalate "," g ++ ")"

/-- The earlier buildFilterQuery variant kept in the repository history. -/
def buildFilterQueryOld (filters : List FilterCriteria) : String :=
  if filters.length = 0 then ""
  else if ¬ hasOr filters then
    String.intercalate "&" (filters.map singleTerm)
  else
    String.intercalate "&" ((buildGroupsOld filters).map renderGroupOld)

/-- The OPERATORS table of FilterBuilderScreen: the operator token paired
with the label shown to the user. -/
def OPERATORS : List (FilterOperator × String) :=
  [(FilterOperator.like, "Starts With"),
   (FilterOperator.ilike, "Contains"),
   (FilterOperator.eq, "Equals"),
   (FilterOperator.gt, "Greater Than"),
   (FilterOperator.lt, "Less Than"),
   (FilterOperator.gte, "Greater or Equal"),
   (FilterOperator.lte, "Less or Equal")]

/-- Reference form of the grouping performed by the forEach loop of
buildFilterQuery: split the criterion list after every criterion that is
not connected to its successor by or. -/
def groupCriteria : List FilterCriteria → List (List FilterCriteria)
  | [] => []
  | [f] => [[f]]
  | f :: g :: t =>
    if f.logic = some FilterLogic.or then
      match groupCriteria (g :: t) with
      | [] => [[f]]
      | h :: hs => (f :: h) :: hs
    else [f] :: groupCriteria (g :: t)

/-- Reference rendering of one group of criteria: a singleton group in the
structured single-condition form, a larger group as an or=() disjunction of
text-extraction conditions. -/
def renderG : List FilterCriteria → String
  | [f] => singleTerm f
  | g => "or=(" ++ String.intercalate "," (g.map orTerm) ++ ")"

/-- The final flush of the grouping loop, split out so the loop can be
characterised by induction. -/
def flushGroups (st : List (List String) × List String) : List (List String) :=
  if st.2.length > 0 then st.1 ++ [st.2] else st.1

/-- Prepend a partial group onto the head group of a group list. -/
def prependCur (c : List String) : List (List String) → List (List String)
  | [] => [c]
  | g :: gs => (c ++ g) :: gs

lemma groupCriteria_ne_nil : ∀ (l : List FilterCriteria), l ≠ [] → groupCriteria l ≠ []
  | [], h => absurd rfl h
  | [_], _ => by simp [groupCriteria]
  | f :: g :: t, _ => by
    simp only [groupCriteria]
    split
    · cases hgc : groupCriteria (g :: t) <;> simp
    · simp

lemma groupCriteria_cons_ne (f : FilterCriteria) (l : List FilterCriteria) (hl : l ≠ [])
    (hf : f.logic ≠ some FilterLogic.or) :
    groupCriteria (f :: l) = [f] :: groupCriteria l := by
  cases l with
  | nil => exact absurd rfl hl
  | cons g t => simp [groupCriteria, hf]

lemma groupCriteria_cons_or (f : FilterCriteria) (l : List FilterCriteria)
    {h : List FilterCriteria} {hs : List (List FilterCriteria)}
    (hf : f.logic = some FilterLogic.or) (hl : groupCriteria l = h :: hs) :
    groupCriteria (f :: l) = (f :: h) :: hs := by
  cases l with
  | nil => simp [groupCriteria] at hl
  | cons g t => simp [groupCriteria, hf, hl]

lemma flushGroups_foldl (n : Nat) :
    ∀ (l : List FilterCriteria) (k : Nat) (groups : List (List String)) (current : List String),
      k + l.length = n → l ≠ [] →
      flushGroups ((l.enumFrom k).foldl (groupStep n) (groups, current)) =
        groups ++ prependCur current ((groupCriteria l).map (List.map orTerm)) := by
  intro l
  induction l with
  | nil => intro k groups current _ hne; exact absurd rfl hne
  | cons f t ih =>
    intro k groups current hk _
    cases t with
    | nil =>
      have hklt : ¬ (k < n - 1) := by simp at hk; omega
      simp [List.enumFrom, groupStep, hklt, flushGroups, groupCriteria, prependCur]
    | cons g t' =>
      have hklt : k < n - 1 := by simp at hk; omega
      obtain ⟨h, hs, hgc⟩ : ∃ h hs, groupCriteria (g :: t') = h :: hs := by
        cases hg : groupCriteria (g :: t') with
        | nil => exact absurd hg (groupCriteria_ne_nil _ (by simp))
        | cons a b => exact ⟨a, b, rfl⟩
      by_cases hf : f.logic = some FilterLogic.or
      · have hstep :
            groupStep n (groups, current) (k, f) = (groups, current ++ [orTerm f]) := by
          simp [groupStep, hf, hklt]
        rw [show (f :: g :: t').enumFrom k = (k, f) :: (g :: t').enumFrom (k + 1) from rfl,
          List.foldl_cons, hstep,
          ih (k + 1) groups (current ++ [orTerm f]) (by simp at hk ⊢; omega) (by simp),
          groupCriteria_cons_or f _ hf hgc, hgc]
        simp [prependCur]
      · have hstep :
            groupStep n (groups, current) (k, f) = (groups ++ [current ++ [orTerm f]], []) := by
          simp [groupStep, hf, hklt]
        rw [show (f :: g :: t').enumFrom k = (k, f) :: (g :: t').enumFrom (k + 1) from rfl,
          List.foldl_cons, hstep,
          ih (k + 1) (groups ++ [current ++ [orTerm f]]) [] (by simp at hk ⊢; omega) (by simp),
          groupCriteria_cons_ne f _ (by simp) hf, hgc]
        simp [prependCur]

lemma buildGroups_eq (l : List FilterCriteria) (hne : l ≠ []) :
    buildGroups l = (groupCriteria l).map (List.map orTerm) := by
  have h0 : buildGroups l = flushGroups (l.enum.foldl (groupStep l.length) ([], [])) := rfl
  rw [h0, show l.enum = l.enumFrom 0 from rfl,
    flushGroups_foldl l.length l 0 [] [] (by simp) hne]
  obtain ⟨h, hs, hgc⟩ : ∃ h hs, groupCriteria l = h :: hs := by
    cases hg : groupCriteria l with
    | nil => exact absurd hg (groupCriteria_ne_nil _ hne)
    | cons a b => exact ⟨a, b, rfl⟩
  simp [hgc, prependCur]

lemma replaceFirstAux_of_isPrefix (pat rest repl : List Char) (hp : pat ≠ []) :
    replaceFirstAux pat repl (pat ++ rest) = repl ++ rest := by
  cases pat with
  | nil => exact absurd rfl hp
  | cons c cs =>
    have hpre : (c :: cs).isPrefixOf ((c :: cs) ++ rest) = true := by
      rw [List.isPrefixOf_iff_prefix]; exact List.prefix_append _ _
    show replaceFirstAux (c :: cs) repl (c :: (cs ++ rest)) = repl ++ rest
    rw [replaceFirstAux, if_pos (by simp [hpre])]
    rw [show c :: (cs ++ rest) = (c :: cs) ++ rest from rfl, List.drop_left]

lemma jsReplaceFirst_orTerm (f : FilterCriteria) :
    jsReplaceFirst (orTerm f) "values->>" "values->" = singleTerm f := by
  apply String.ext
  show replaceFirstAux "values->>".data "values->".data (orTerm f).data = (singleTerm f).data
  rw [show orTerm f =
        "values->>" ++ (f.field ++ "." ++ opToken f.operator ++ "." ++ queryValue f.operator f.value)
      from rfl,
    show singleTerm f =
        "values->" ++ (f.field ++ "." ++ opToken f.operator ++ "." ++ queryValue f.operator f.value)
      from rfl,
    String.data_append, String.data_append]
  exact replaceFirstAux_of_isPrefix _ _ _ (by decide)

lemma renderGroup_map_orTerm (g : List FilterCriteria) :
    renderGroup (g.map orTerm) = renderG g := by
  match g with
  | [] => rfl
  | [f] =>
    show jsReplaceFirst (orTerm f) "values->>" "values->" = singleTerm f
    exact jsReplaceFirst_orTerm f
  | a :: b :: t => rfl

lemma hasOr_iff {l : List FilterCriteria} :
    hasOr l = true ↔
      ∃ i f, l[i]? = some f ∧ i + 1 < l.length ∧ f.logic = some FilterLogic.or := by
  unfold hasOr
  rw [List.any_eq_true]
  constructor
  · rintro ⟨⟨i, f⟩, hmem, hp⟩
    rw [List.mem_enum_iff_getElem?] at hmem
    simp only [Bool.and_eq_true, decide_eq_true_eq] at hp
    have hi : i < l.length := (List.getElem?_eq_some_iff.mp hmem).1
    exact ⟨i, f, hmem, by omega, hp.2⟩
  · rintro ⟨i, f, hget, hlt, hor⟩
    refine ⟨(i, f), List.mem_enum_iff_getElem?.mpr hget, ?_⟩
    simp only [Bool.and_eq_true, decide_eq_true_eq]
    exact ⟨by omega, hor⟩

lemma buildFilterQuery_fast (l : List FilterCriteria) (h : hasOr l = false) :
    buildFilterQuery l = String.intercalate "&" (l.map singleTerm) := by
  cases l with
  | nil => rfl
  | cons f t => simp [buildFilterQuery, h]

lemma buildFilterQuery_general (l : List FilterCriteria) (hne : l ≠ [])
    (h : hasOr l = true) :
    buildFilterQuery l = String.intercalate "&" ((groupCriteria l).map renderG) := by
  have hlen : ¬ (l.length = 0) := by simp [List.length_eq_zero, hne]
  rw [show buildFilterQuery l =
      (if l.length = 0 then ""
       else if ¬ hasOr l then String.intercalate "&" (l.map singleTerm)
       else String.intercalate "&" ((buildGroups l).map renderGroup)) from rfl,
    if_neg hlen, if_neg (by simp [h]), buildGroups_eq l hne, List.map_map]
  congr 1
  exact List.map_congr_left fun a _ => renderGroup_map_orTerm a

lemma groupCriteria_break (xs : List FilterCriteria) (p : FilterCriteria)
    (rest : List FilterCriteria) (hp : p.logic ≠ some FilterLogic.or) (hr : rest ≠ []) :
    groupCriteria (xs ++ p :: rest) = groupCriteria (xs ++ [p]) ++ groupCriteria rest := by
  induction xs with
  | nil =>
    cases rest with
    | nil => exact absurd rfl hr
    | cons r t =>
      show groupCriteria (p :: r :: t) = groupCriteria [p] ++ groupCriteria (r :: t)
      rw [groupCriteria_cons_ne p _ (by simp) hp]
      rfl
  | cons x xs ih =>
    by_cases hx : x.logic = some FilterLogic.or
    · obtain ⟨h, hs, hgc⟩ : ∃ h hs, groupCriteria (xs ++ [p]) = h :: hs := by
        cases hg : groupCriteria (xs ++ [p]) with
        | nil => exact absurd hg (groupCriteria_ne_nil _ (by simp))
        | cons a b => exact ⟨a, b, rfl⟩
      have hgc2 : groupCriteria (xs ++ p :: rest) = h :: (hs ++ groupCriteria rest) := by
        rw [ih, hgc]; rfl
      show groupCriteria (x :: (xs ++ p :: rest)) =
        groupCriteria (x :: (xs ++ [p])) ++ groupCriteria rest
      rw [groupCriteria_cons_or x _ hx hgc2, groupCriteria_cons_or x _ hx hgc]
      rfl
    · show groupCriteria (x :: (xs ++ p :: rest)) =
        groupCriteria (x :: (xs ++ [p])) ++ groupCriteria rest
      rw [groupCriteria_cons_ne x _ (by simp) hx, groupCriteria_cons_ne x _ (by simp) hx, ih]
      rfl

lemma groupCriteria_all_or (run : List FilterCriteria) (hne : run ≠ [])
    (h : ∀ f ∈ run.dropLast, f.logic = some FilterLogic.or) :
    groupCriteria run = [run] := by
  induction run with
  | nil => exact absurd rfl hne
  | cons f t ih =>
    cases t with
    | nil => simp [groupCriteria]
    | cons g t' =>
      have hf : f.logic = some FilterLogic.or := by
        apply h f
        simp
      have ht : groupCriteria (g :: t') = [g :: t'] := by
        apply ih (by simp)
        intro x hx
        apply h x
        rw [show (f :: g :: t').dropLast = f :: (g :: t').dropLast by simp]
        exact List.mem_cons_of_mem f hx
      exact groupCriteria_cons_or f _ hf ht

lemma groupCriteria_run (pre run post : List FilterCriteria)
    (h2 : 2 ≤ run.length)
    (hrun : ∀ f ∈ run.dropLast, f.logic = some FilterLogic.or)
    (hleft : ∀ q, pre.getLast? = some q → q.logic ≠ some FilterLogic.or)
    (hright : post = [] ∨ ∀ q, run.getLast? = some q → q.logic ≠ some FilterLogic.or) :
    ∃ G1 G2, groupCriteria (pre ++ run ++ post) = G1 ++ run :: G2 := by
  have hrne : run ≠ [] := by
    intro h; rw [h] at h2; simp at h2
  have hmid : ∃ Gp, groupCriteria (run ++ post) = run :: Gp := by
    by_cases hpost : post = []
    · refine ⟨[], ?_⟩
      rw [hpost, List.append_nil, groupCriteria_all_or run hrne hrun]
    · have hlast : ∀ q, run.getLast? = some q → q.logic ≠ some FilterLogic.or := by
        rcases hright with h | h
        · exact absurd h hpost
        · exact h
      rcases List.eq_nil_or_concat run with h | ⟨run', pl, hdec⟩
      · exact absurd h hrne
      have hdec' : run = run' ++ [pl] := by simpa using hdec
      have hpl : pl.logic ≠ some FilterLogic.or := by
        apply hlast
        rw [hdec']; simp
      refine ⟨groupCriteria post, ?_⟩
      calc groupCriteria (run ++ post)
          = groupCriteria (run' ++ pl :: post) := by rw [hdec']; simp
        _ = groupCriteria (run' ++ [pl]) ++ groupCriteria post :=
            groupCriteria_break run' pl post hpl hpost
        _ = [run] ++ groupCriteria post := by
            rw [← hdec', groupCriteria_all_or run hrne hrun]
        _ = run :: groupCriteria post := rfl
  obtain ⟨Gp, hGp⟩ := hmid
  rcases List.eq_nil_or_concat pre with hpre | ⟨pre', q, hpre⟩
  · refine ⟨[], Gp, ?_⟩
    rw [hpre, List.nil_append, hGp]
    rfl
  · have hpre' : pre = pre' ++ [q] := by simpa using hpre
    have hq : q.logic ≠ some FilterLogic.or := by
      apply hleft
      rw [hpre']; simp
    refine ⟨groupCriteria (pre' ++ [q]), Gp, ?_⟩
    calc groupCriteria (pre ++ run ++ post)
        = groupCriteria (pre' ++ q :: (run ++ post)) := by rw [hpre']; simp
      _ = groupCriteria (pre' ++ [q]) ++ groupCriteria (run ++ post) :=
          groupCriteria_break pre' q (run ++ post) hq (by simp [hrne])
      _ = groupCriteria (pre' ++ [q]) ++ (run :: Gp) := by rw [hGp]

lemma hasOr_eq_false_of (filters : List FilterCriteria)
    (h : ∀ (i : Nat) (f : FilterCriteria),
      i + 1 < filters.length → filters[i]? = some f → f.logic ≠ some FilterLogic.or) :
    hasOr filters = false := by
  cases hOr : hasOr filters
  · rfl
  · obtain ⟨i, f, hget, hlt, hor⟩ := hasOr_iff.mp hOr
    exact absurd hor (h i f hlt hget)

example :
    buildFilterQuery
      [{ field := "name", operator := .eq, value := "John", logic := some .and },
       { field := "age", operator := .gt, value := "25" }]
      = "values->name.eq.John&values->age.gt.25" := by decide

example :
    buildFilterQuery [{ field := "city", operator := .like, value := "Bris" }]
      = "values->city.like.Bris*" := by decide

example :
    buildFilterQuery
      [{ field := "a", operator := .eq, value := "1", logic := some .or },
       { field := "b", operator := .eq, value := "2", logic := some .or },
       { field := "c", operator := .eq, value := "3", logic := some .and },
       { field := "d", operator := .eq, value := "4" }]
      = "or=(values->>a.eq.1,values->>b.eq.2,values->>c.eq.3)&values->d.eq.4" := by decide

/-- Claim C1: for every criterion list and every maximal run of two or more
consecutive criteria in which each criterion before the last of the run has
connector or, buildFilterQuery places all criteria of that run inside one
single parenthesized or=() group, never split or nested, and every member of
that group is rendered with the text-extraction accessor values->>field.
Maximality of the run is expressed by the hypotheses on the criterion just
before the run and on the last criterion of the run. -/
theorem c1_or_run_single_group (pre run post : List FilterCriteria)
    (h2 : 2 ≤ run.length)
    (hrun : ∀ f ∈ run.dropLast, f.logic = some FilterLogic.or)
    (hleft : ∀ q, pre.getLast? = some q → q.logic ≠ some FilterLogic.or)
    (hright : post = [] ∨ ∀ q, run.getLast? = some q → q.logic ≠ some FilterLogic.or) :
    ∃ ts1 ts2, buildFilterQuery (pre ++ run ++ post) =
      String.intercalate "&" (ts1 ++
        ("or=(" ++ String.intercalate ","
          (run.map fun f =>
            "values->>" ++ (f.field ++ "." ++ opToken f.operator ++ "." ++
              queryValue f.operator f.value)) ++ ")") :: ts2) := by
  obtain ⟨G1, G2, hG⟩ := groupCriteria_run pre run post h2 hrun hleft hright
  rcases run with _ | ⟨r1, _ | ⟨r2, rr⟩⟩
  · simp at h2
  · simp at h2
  have hne : pre ++ (r1 :: r2 :: rr) ++ post ≠ [] := by simp
  have hor : hasOr (pre ++ (r1 :: r2 :: rr) ++ post) = true := by
    apply hasOr_iff.mpr
    refine ⟨pre.length, r1, ?_, ?_, ?_⟩
    · rw [List.append_assoc, List.getElem?_append_right (le_refl pre.length)]
      simp
    · simp
    · apply hrun r1
      simp
  rw [buildFilterQuery_general _ hne hor, hG]
  refine ⟨G1.map renderG, G2.map renderG, ?_⟩
  rw [List.map_append, List.map_cons]
  rfl

/-- Witness for C1 at the concrete two-criterion or-run of the spec's
scenario A. -/
theorem c1_witness :
    ∃ ts1 ts2,
      buildFilterQuery
          [({ field := "name", operator := .eq, value := "John", logic := some .or } :
              FilterCriteria),
           { field := "name", operator := .eq, value := "Jane" }] =
        String.intercalate "&" (ts1 ++
          ("or=(" ++ String.intercalate ","
            ([({ field := "name", operator := .eq, value := "John", logic := some .or } :
                  FilterCriteria),
              { field := "name", operator := .eq, value := "Jane" }].map fun f =>
              "values->>" ++ (f.field ++ "." ++ opToken f.operator ++ "." ++
                queryValue f.operator f.value)) ++ ")") :: ts2) :=
  c1_or_run_single_group []
    [{ field := "name", operator := .eq, value := "John", logic := some .or },
     { field := "name", operator := .eq, value := "Jane" }]
    [] (by decide) (by decide) (by intro q hq; simp at hq) (Or.inl rfl)

/-- Claim C2: a criterion whose connector is and ends its group, the next
criterion beginning a new group, and every closed group with exactly one
criterion is rendered in the ungrouped single-condition form using the
structured accessor values->field, not the text-extraction accessor and not
an or=() wrapper. The middle conjunct ties the reference grouping and
rendering to the output of buildFilterQuery. -/
theorem c2_and_boundary_and_singleton_form :
    (∀ (xs : List FilterCriteria) (p : FilterCriteria) (rest : List FilterCriteria),
      p.logic = some FilterLogic.and → rest ≠ [] →
      groupCriteria (xs ++ p :: rest) = groupCriteria (xs ++ [p]) ++ groupCriteria rest)
    ∧ (∀ filters : List FilterCriteria, filters ≠ [] → hasOr filters = true →
      buildFilterQuery filters = String.intercalate "&" ((groupCriteria filters).map renderG))
    ∧ (∀ f : FilterCriteria,
      renderG [f] = "values->" ++ (f.field ++ "." ++ opToken f.operator ++ "." ++
        queryValue f.operator f.value)) := by
  refine ⟨?_, ?_, ?_⟩
  · intro xs p rest hp hr
    exact groupCriteria_break xs p rest (by simp [hp]) hr
  · intro filters h1 h2
    exact buildFilterQuery_general filters h1 h2
  · intro f
    rfl

/-- Witness for C2 at concrete inputs: an and connector splitting two
criteria into separate groups, a concrete or-list rendered through the
reference grouping, and a concrete singleton group. -/
theorem c2_witness :
    (groupCriteria
        ([({ field := "a", operator := .eq, value := "1", logic := some .or } :
            FilterCriteria)] ++
          ({ field := "b", operator := .eq, value := "2", logic := some .and } :
            FilterCriteria) ::
          [{ field := "c", operator := .eq, value := "3" }]) =
      groupCriteria
          ([({ field := "a", operator := .eq, value := "1", logic := some .or } :
              FilterCriteria)] ++
            [{ field := "b", operator := .eq, value := "2", logic := some .and }]) ++
        groupCriteria [{ field := "c", operator := .eq, value := "3" }])
    ∧ (buildFilterQuery
          [({ field := "x", operator := .eq, value := "1", logic := some .or } :
              FilterCriteria),
           { field := "y", operator := .eq, value := "2" }] =
        String.intercalate "&"
          ((groupCriteria
              [({ field := "x", operator := .eq, value := "1", logic := some .or } :
                  FilterCriteria),
               { field := "y", operator := .eq, value := "2" }]).map renderG))
    ∧ (renderG [({ field := "city", operator := .like, value := "Bris" } : FilterCriteria)] =
        "values->" ++ ("city" ++ "." ++ opToken .like ++ "." ++ queryValue .like "Bris")) :=
  ⟨c2_and_boundary_and_singleton_form.1 _ _ _ rfl (by simp),
   c2_and_boundary_and_singleton_form.2.1 _ (by simp) (by decide),
   c2_and_boundary_and_singleton_form.2.2 _⟩

/-- Claim C3: for every criterion list in which no criterion other than
possibly the last has connector or, buildFilterQuery returns exactly the
per-criterion single-condition terms values->field.operator.literal joined
by the ampersand separator, with no or=() grouping applied. -/
theorem c3_fast_path_no_or (filters : List FilterCriteria)
    (h : ∀ (i : Nat) (f : FilterCriteria),
      i + 1 < filters.length → filters[i]? = some f → f.logic ≠ some FilterLogic.or) :
    buildFilterQuery filters =
      String.intercalate "&" (filters.map fun f =>
        "values->" ++ (f.field ++ "." ++ opToken f.operator ++ "." ++
          queryValue f.operator f.value)) :=
  buildFilterQuery_fast filters (hasOr_eq_false_of filters h)

/-- Witness for C3 at the concrete and-connected list of the spec's
scenario B. -/
theorem c3_witness :
    buildFilterQuery
        [({ field := "name", operator := .eq, value := "John", logic := some .and } :
            FilterCriteria),
         { field := "age", operator := .gt, value := "25" }] =
      String.intercalate "&"
        ([({ field := "name", operator := .eq, value := "John", logic := some .and } :
            FilterCriteria),
          { field := "age", operator := .gt, value := "25" }].map fun f =>
          "values->" ++ (f.field ++ "." ++ opToken f.operator ++ "." ++
            queryValue f.operator f.value)) :=
  c3_fast_path_no_or _ (by
    intro i f hi hget
    match i, hi with
    | 0, _ =>
      simp only [List.getElem?_cons_zero, Option.some.injEq] at hget
      rw [← hget]
      decide)

/-- Claim C5: for the empty criterion list, buildFilterQuery returns the
empty string. -/
theorem c5_empty_list : buildFilterQuery [] = "" := rfl

/-- Claim C6: buildFilterQuery is total over structurally valid input; in
this shallow embedding it is a total function into String, so it returns a
string on every list of well-formed criterion records, and a criterion whose
value is the empty string is not rejected but encoded as-is into the
output. -/
theorem c6_total_and_empty_value_passthrough :
    (∀ filters : List FilterCriteria, ∃ s : String, buildFilterQuery filters = s)
    ∧ ∀ (name : String) (op : FilterOperator),
      buildFilterQuery [{ field := name, operator := op, value := "", logic := none }] =
        "values->" ++ (name ++ "." ++ opToken op ++ "." ++ queryValue op "") :=
  ⟨fun _ => ⟨_, rfl⟩, fun _ _ => rfl⟩

lemma groupCriteria_length (l : List FilterCriteria) (hne : l ≠ []) :
    (groupCriteria l).length =
      1 + l.dropLast.countP (fun f => decide (f.logic ≠ some FilterLogic.or)) := by
  induction l with
  | nil => exact absurd rfl hne
  | cons f t ih =>
    cases t with
    | nil => simp [groupCriteria]
    | cons g t' =>
      obtain ⟨h, hs, hgc⟩ : ∃ h hs, groupCriteria (g :: t') = h :: hs := by
        cases hg : groupCriteria (g :: t') with
        | nil => exact absurd hg (groupCriteria_ne_nil _ (by simp))
        | cons a b => exact ⟨a, b, rfl⟩
      have hlen := ih (by simp)
      rw [hgc] at hlen
      have hd : (f :: g :: t').dropLast = f :: (g :: t').dropLast := by simp
      by_cases hf : f.logic = some FilterLogic.or
      · rw [groupCriteria_cons_or f _ hf hgc, hd, List.countP_cons]
        simp only [decide_not, List.length_cons] at hlen ⊢
        simp [hf]
        omega
      · rw [groupCriteria_cons_ne f _ (by simp) hf, hgc, hd, List.countP_cons]
        simp only [decide_not, List.length_cons] at hlen ⊢
        simp [hf]
        omega

lemma groupStep_logic_irrelevant (n0 m : Nat) (st : List (List String) × List String)
    (a a' : FilterCriteria) (hf : a.field = a'.field) (ho : a.operator = a'.operator)
    (hv : a.value = a'.value)
    (hl : (a.logic = some FilterLogic.or) = (a'.logic = some FilterLogic.or)) :
    groupStep n0 st (m, a) = groupStep n0 st (m, a') := by
  simp only [groupStep, orTerm, hf, ho, hv, hl]

lemma buildFilterQuery_logic_default (xs ys : List FilterCriteria)
    (n : String) (op : FilterOperator) (v : String) :
    buildFilterQuery
        (xs ++ ({ field := n, operator := op, value := v, logic := none } :
          FilterCriteria) :: ys) =
      buildFilterQuery
        (xs ++ ({ field := n, operator := op, value := v, logic := some FilterLogic.and } :
          FilterCriteria) :: ys) := by
  set A : FilterCriteria := { field := n, operator := op, value := v, logic := none } with hA
  set A' : FilterCriteria :=
    { field := n, operator := op, value := v, logic := some FilterLogic.and } with hA2
  have hlen : (xs ++ A :: ys).length = (xs ++ A' :: ys).length := by simp
  have henum : (xs ++ A :: ys).enum =
      xs.enumFrom 0 ++ (0 + xs.length, A) :: ys.enumFrom (0 + xs.length + 1) := by
    rw [show (xs ++ A :: ys).enum = (xs ++ A :: ys).enumFrom 0 from rfl,
      List.enumFrom_append]
    rfl
  have henum2 : (xs ++ A' :: ys).enum =
      xs.enumFrom 0 ++ (0 + xs.length, A') :: ys.enumFrom (0 + xs.length + 1) := by
    rw [show (xs ++ A' :: ys).enum = (xs ++ A' :: ys).enumFrom 0 from rfl,
      List.enumFrom_append]
    rfl
  have hOr : hasOr (xs ++ A :: ys) = hasOr (xs ++ A' :: ys) := by
    unfold hasOr
    rw [hlen, henum, henum2]
    simp [List.any_append, List.any_cons, hA, hA2]
  have hGroups : buildGroups (xs ++ A :: ys) = buildGroups (xs ++ A' :: ys) := by
    unfold buildGroups
    rw [hlen, show (xs ++ A :: ys).enum = (xs ++ A :: ys).enumFrom 0 from rfl,
      show (xs ++ A' :: ys).enum = (xs ++ A' :: ys).enumFrom 0 from rfl,
      List.enumFrom_append, List.enumFrom_append,
      show (A :: ys).enumFrom (0 + xs.length) =
        (0 + xs.length, A) :: ys.enumFrom (0 + xs.length + 1) from rfl,
      show (A' :: ys).enumFrom (0 + xs.length) =
        (0 + xs.length, A') :: ys.enumFrom (0 + xs.length + 1) from rfl,
      List.foldl_append, List.foldl_append, List.foldl_cons, List.foldl_cons,
      groupStep_logic_irrelevant _ _ _ A A' rfl rfl rfl (by simp [hA, hA2])]
  have hmap : (xs ++ A :: ys).map singleTerm = (xs ++ A' :: ys).map singleTerm := by
    simp [singleTerm, hA, hA2]
  unfold buildFilterQuery
  rw [hGroups, hmap, hOr, hlen]

/-- Claim C8: for every non-empty criterion list the output of
buildFilterQuery is the ampersand-join of exactly 1 + k top-level terms,
where k is the number of criteria other than the last whose connector is
not or; and a criterion whose optional connector is absent behaves exactly
like connector and. -/
theorem c8_term_count_and_default_connector :
    (∀ filters : List FilterCriteria, filters ≠ [] →
      ∃ terms : List String,
        buildFilterQuery filters = String.intercalate "&" terms ∧
        terms.length =
          1 + filters.dropLast.countP (fun f => decide (f.logic ≠ some FilterLogic.or)))
    ∧ ∀ (xs ys : List FilterCriteria) (n : String) (op : FilterOperator) (v : String),
      buildFilterQuery
          (xs ++ ({ field := n, operator := op, value := v, logic := none } :
            FilterCriteria) :: ys) =
        buildFilterQuery
          (xs ++ ({ field := n, operator := op, value := v, logic := some FilterLogic.and } :
            FilterCriteria) :: ys) := by
  constructor
  · intro filters hne
    cases hOr : hasOr filters
    · refine ⟨filters.map singleTerm, buildFilterQuery_fast filters hOr, ?_⟩
      rw [List.length_map]
      have hall : ∀ f ∈ filters.dropLast,
          (fun f => decide (f.logic ≠ some FilterLogic.or)) f = true := by
        intro f hf
        simp only [decide_eq_true_eq]
        obtain ⟨i, hi, hget⟩ := List.mem_iff_getElem.mp hf
        have hlt : i < filters.length - 1 := by
          have h2 := hi
          rw [List.length_dropLast] at h2
          exact h2
        have hgetl : filters[i]? = some f := by
          have hi2 : i < filters.length := by omega
          rw [List.getElem?_eq_getElem hi2]
          rw [← List.getElem_dropLast filters i hi]
          rw [hget]
        intro hor
        have hcontra : hasOr filters = true := hasOr_iff.mpr ⟨i, f, hgetl, by omega, hor⟩
        rw [hOr] at hcontra
        exact Bool.false_ne_true hcontra
      rw [List.countP_eq_length.mpr hall, List.length_dropLast]
      have hlen0 : filters.length ≠ 0 := by simp [List.length_eq_zero, hne]
      omega
    · refine ⟨(groupCriteria filters).map renderG,
        buildFilterQuery_general filters hne hOr, ?_⟩
      rw [List.length_map, groupCriteria_length filters hne]
  · intro xs ys n op v
    exact buildFilterQuery_logic_default xs ys n op v

/-- Witness for C8 at a concrete two-element list and a concrete
connector-absent criterion. -/
theorem c8_witness :
    (∃ terms : List String,
      buildFilterQuery
          [({ field := "name", operator := .eq, value := "John", logic := some .and } :
              FilterCriteria),
           { field := "age", operator := .gt, value := "25" }] =
        String.intercalate "&" terms ∧
      terms.length =
        1 + ([({ field := "name", operator := .eq, value := "John", logic := some .and } :
                FilterCriteria),
              { field := "age", operator := .gt, value := "25" }].dropLast.countP
            (fun f => decide (f.logic ≠ some FilterLogic.or))))
    ∧ buildFilterQuery
          ([] ++ ({ field := "age", operator := .gt, value := "25", logic := none } :
            FilterCriteria) :: [{ field := "z", operator := .eq, value := "9" }]) =
        buildFilterQuery
          ([] ++
            ({ field := "age", operator := .gt, value := "25", logic := some FilterLogic.and } :
              FilterCriteria) ::
            [{ field := "z", operator := .eq, value := "9" }]) :=
  ⟨c8_term_count_and_default_connector.1 _ (by simp),
   c8_term_count_and_default_connector.2 [] [{ field := "z", operator := .eq, value := "9" }]
     "age" .gt "25"⟩

/-- Claim C9: on every list in which no criterion other than possibly the
last has connector or, the current buildFilterQuery and the earlier variant
agree exactly. -/
theorem c9_old_new_agree_without_or (filters : List FilterCriteria)
    (h : ∀ (i : Nat) (f : FilterCriteria),
      i + 1 < filters.length → filters[i]? = some f → f.logic ≠ some FilterLogic.or) :
    buildFilterQuery filters = buildFilterQueryOld filters := by
  have hf : hasOr filters = false := hasOr_eq_false_of filters h
  cases filters with
  | nil => rfl
  | cons f t => simp [buildFilterQuery, buildFilterQueryOld, hf]

/-- Witness for C9 at a concrete and-connected list. -/
theorem c9_witness :
    buildFilterQuery
        [({ field := "name", operator := .eq, value := "John", logic := some .and } :
            FilterCriteria),
         { field := "age", operator := .gt, value := "25" }] =
      buildFilterQueryOld
        [({ field := "name", operator := .eq, value := "John", logic := some .and } :
            FilterCriteria),
         { field := "age", operator := .gt, value := "25" }] :=
  c9_old_new_agree_without_or _ (by
    intro i f hi hget
    match i, hi with
    | 0, _ =>
      simp only [List.getElem?_cons_zero, Option.some.injEq] at hget
      rw [← hget]
      decide)

/-- Claim C4: the operator table is the fixed closed table pairing each UI
operator name with its token, and the emitted literal is operator-driven:
the like literal is the raw value with exactly one trailing wildcard
appended and none prepended, the ilike literal is the raw value wrapped in
a leading and a trailing wildcard, and every other operator emits the raw
value unchanged. -/
theorem c4_operator_table_and_literals :
    ((FilterOperator.like, "Starts With") ∈ OPERATORS
      ∧ (FilterOperator.ilike, "Contains") ∈ OPERATORS
      ∧ (FilterOperator.eq, "Equals") ∈ OPERATORS
      ∧ (FilterOperator.gt, "Greater Than") ∈ OPERATORS
      ∧ (FilterOperator.lt, "Less Than") ∈ OPERATORS
      ∧ (FilterOperator.gte, "Greater or Equal") ∈ OPERATORS
      ∧ (FilterOperator.lte, "Less or Equal") ∈ OPERATORS)
    ∧ (∀ op : FilterOperator, op ∈ OPERATORS.map Prod.fst)
    ∧ (∀ v : String, queryValue FilterOperator.like v = v ++ "*")
    ∧ (∀ v : String, queryValue FilterOperator.ilike v = "*" ++ v ++ "*")
    ∧ ∀ (op : FilterOperator) (v : String),
        op ≠ FilterOperator.like → op ≠ FilterOperator.ilike → queryValue op v = v := by
  refine ⟨by decide, ?_, fun v => rfl, fun v => rfl, ?_⟩
  · intro op
    cases op <;> decide
  · intro op v h1 h2
    cases op
    · exact absurd rfl h2
    · exact absurd rfl h1
    all_goals rfl

/-- Witness for C4 at a concrete non-wildcard operator and value. -/
theorem c4_witness : queryValue FilterOperator.eq "Jo" = "Jo" :=
  c4_operator_table_and_literals.2.2.2.2 FilterOperator.eq "Jo" (by decide) (by decide)

/-- FieldType from src/types; the multiple choice variant models the string
literal with the space in it. -/
inductive FieldType where
  | text
  | multiline
  | multipleChoice
  | location
  | image
deriving DecidableEq, Repr

/-- Field from src/types. -/
structure Field where
  id : Int
  form_id : Int
  name : String
  field_type : FieldType
  options : Option (List String) := none
  required : Bool
  is_num : Bool
  order_index : Int
  username : String
deriving DecidableEq, Repr

/-- A JavaScript number as produced by parseFloat: NaN, a signed infinity,
or a finite value represented exactly as a rational (binary64 rounding is
not modelled; every value occurring in the theorems below is a small
integer, which binary64 represents exactly). -/
inductive JSNum where
  | nan
  | posInf
  | negInf
  | finite (q : ℚ)
deriving DecidableEq, Repr

/-- One runtime record value of the RecordValues mapping: string, number,
location object, or null; an absent (undefined) value is Option.none one
level up. -/
inductive RecordValue where
  | str (s : String)
  | num (x : JSNum)
  | loc (lat lng : ℚ)
  | null
deriving DecidableEq, Repr

/-- JavaScript truthiness of a record value: empty string, 0, NaN and null
are falsy, every other value of these shapes is truthy. -/
def jsTruthy : RecordValue → Bool
  | .str s => decide (s ≠ "")
  | .num .nan => false
  | .num (.finite q) => decide (q ≠ 0)
  | .num .posInf => true
  | .num .negInf => true
  | .loc _ _ => true
  | .null => false

/-- Truthiness including the undefined case. -/
def optTruthy : Option RecordValue → Bool
  | none => false
  | some w => jsTruthy w

/-- The typeof value equals string test. -/
def isStrVal : Option RecordValue → Bool
  | some (.str _) => true
  | _ => false

/-- The underlying string of a string-shaped value; only consulted under
isStrVal. -/
def strValOf : Option RecordValue → String
  | some (.str s) => s
  | _ => ""

/-- JavaScript String.prototype.trim modelled on the character list using
the ASCII whitespace predicate; the exotic Unicode space classes never
occur in the inputs considered here. -/
def jsTrim (s : String) : String :=
  ⟨((s.data.dropWhile Char.isWhitespace).reverse.dropWhile Char.isWhitespace).reverse⟩

/-- Value of a list of decimal digit characters. -/
def digitsVal (ds : List Char) : Nat :=
  ds.foldl (fun a c => 10 * a + (c.toNat - Char.toNat '0')) 0

/-- Exponent part of ECMAScript parseFloat: the exponent counts only when at
least one digit follows the marker and optional sign; otherwise the longest
valid prefix of the input ends before the marker and the exponent is 0. -/
def expVal (cs : List Char) : Int :=
  match cs with
  | '-' :: t =>
    if t.takeWhile Char.isDigit = [] then 0 else -(digitsVal (t.takeWhile Char.isDigit) : Int)
  | '+' :: t =>
    if t.takeWhile Char.isDigit = [] then 0 else (digitsVal (t.takeWhile Char.isDigit) : Int)
  | t =>
    if t.takeWhile Char.isDigit = [] then 0 else (digitsVal (t.takeWhile Char.isDigit) : Int)

/-- Exact value of a parsed decimal literal: sign, integer digits, fraction
digits and decimal exponent. -/
def decimalValue (sgn : Int) (ip fp : List Char) (ex : Int) : ℚ :=
  let mantissa : Int := sgn * ((digitsVal ip : Int) * 10 ^ fp.length + (digitsVal fp : Int))
  if 0 ≤ ex then Rat.divInt (mantissa * 10 ^ ex.toNat) (10 ^ fp.length)
  else Rat.divInt mantissa (10 ^ fp.length * 10 ^ (-ex).toNat)

/-- ECMAScript parseFloat: skip leading whitespace, read an optional sign,
then the longest prefix that is a decimal literal (or the Infinity
literal); when no such prefix exists the result is NaN. Trailing characters
after the recognised prefix are ignored. -/
def jsParseFloat (s : String) : JSNum :=
  let cs := s.data.dropWhile Char.isWhitespace
  let sgn : Int := match cs with
    | '-' :: _ => -1
    | _ => 1
  let cs1 := match cs with
    | '-' :: t => t
    | '+' :: t => t
    | t => t
  if "Infinity".data.isPrefixOf cs1 then
    if sgn = 1 then JSNum.posInf else JSNum.negInf
  else
    let ip := cs1.takeWhile Char.isDigit
    let cs2 := cs1.dropWhile Char.isDigit
    let fp := match cs2 with
      | '.' :: t => t.takeWhile Char.isDigit
      | _ => []
    let cs3 := match cs2 with
      | '.' :: t => t.dropWhile Char.isDigit
      | t => t
    if ip = [] ∧ fp = [] then JSNum.nan
    else
      let ex : Int := match cs3 with
        | 'e' :: t => expVal t
        | 'E' :: t => expVal t
        | _ => 0
      JSNum.finite (decimalValue sgn ip fp ex)

/-- The per-field body of the validate function of RecordCreateScreen:
required check, text length checks, numeric parse check, and the
required-presence checks of the choice, location and image types, in source
order; the result is the error message stored for the field, none when the
field passes. -/
def validateField (field : Field) (v : Option RecordValue) : Option String :=
  if field.required && (!(optTruthy v) || (isStrVal v && decide (jsTrim (strValOf v) = ""))) then
    some (field.name ++ " is required")
  else if (decide (field.field_type = FieldType.text)
        || decide (field.field_type = FieldType.multiline))
      && optTruthy v && isStrVal v && decide ((jsTrim (strValOf v)).length < 1) then
    some "Cannot be empty"
  else if (decide (field.field_type = FieldType.text)
        || decide (field.field_type = FieldType.multiline))
      && optTruthy v && isStrVal v && decide (1000 < (strValOf v).length) then
    some "Maximum 1000 characters allowed"
  else if field.is_num && optTruthy v && isStrVal v
      && decide (jsParseFloat (strValOf v) = JSNum.nan) then
    some "Must be a valid number"
  else if decide (field.field_type = FieldType.multipleChoice) && field.required
      && !(optTruthy v) then
    some "Please select an option"
  else if decide (field.field_type = FieldType.location) && field.required
      && !(optTruthy v) then
    some "Please capture location"
  else if decide (field.field_type = FieldType.image) && field.required
      && !(optTruthy v) then
    some "Please add an image"
  else
    none

/-- The numeric coercion applied per field in handleSave before the
processedValues guard: a truthy string value of a numeric field is replaced
by its parseFloat result. -/
def processField (field : Field) (v : Option RecordValue) : Option RecordValue :=
  if field.is_num && optTruthy v && isStrVal v then
    some (RecordValue.num (jsParseFloat (strValOf v)))
  else v

/-- One iteration of the processedValues loop of handleSave: coerce the
value, then store it only when it is neither undefined nor null nor the
empty string. Object insertion is modelled as association-list append; the
invariant proved about it is per entry, so overwriting of duplicate field
names does not matter. -/
def saveStep (values : String → Option RecordValue)
    (acc : List (String × RecordValue)) (field : Field) : List (String × RecordValue) :=
  match processField field (values field.name) with
  | some w =>
    if w = RecordValue.null ∨ w = RecordValue.str "" then acc
    else acc ++ [(field.name, w)]
  | none => acc

/-- The processedValues object assembled by handleSave. -/
def processedValues (fields : List Field)
    (values : String → Option RecordValue) : List (String × RecordValue) :=
  fields.foldl (saveStep values) []

/-- Formalisation of the well-formed numeric text notion used by the spec: a
complete decimal numeral, namely an optional sign, then digits with an
optional fractional part or a bare fractional part, then an optional
exponent with at least one digit, and nothing else. -/
def expTailOk (cs : List Char) : Bool :=
  match cs with
  | '-' :: t => decide (t ≠ []) && t.all Char.isDigit
  | '+' :: t => decide (t ≠ []) && t.all Char.isDigit
  | t => decide (t ≠ []) && t.all Char.isDigit

/-- The whole string is a decimal numeral. -/
def wellFormedNumericText (s : String) : Bool :=
  let cs := match s.data with
    | '-' :: t => t
    | '+' :: t => t
    | t => t
  let ip := cs.takeWhile Char.isDigit
  let cs2 := cs.dropWhile Char.isDigit
  let fp := match cs2 with
    | '.' :: t => t.takeWhile Char.isDigit
    | _ => []
  let cs3 := match cs2 with
    | '.' :: t => t.dropWhile Char.isDigit
    | t => t
  if ip = [] ∧ fp = [] then false
  else
    match cs3 with
    | [] => true
    | 'e' :: t => expTailOk t
    | 'E' :: t => expTailOk t
    | _ => false

/-- Counterexample to claim C7: the raw input 42abc is malformed numeric
text, yet validation of a numeric text field accepts it with no validation
error, and the save-time coercion stores the number 42 parsed from its
numeric prefix instead of failing. -/
theorem c7_counterexample :
    wellFormedNumericText "42abc" = false
    ∧ validateField
        { id := 1, form_id := 1, name := "age", field_type := FieldType.text,
          options := none, required := false, is_num := true, order_index := 0,
          username := "u" }
        (some (RecordValue.str "42abc")) = none
    ∧ processField
        { id := 1, form_id := 1, name := "age", field_type := FieldType.text,
          options := none, required := false, is_num := true, order_index := 0,
          username := "u" }
        (some (RecordValue.str "42abc")) = some (RecordValue.num (JSNum.finite 42)) := by
  refine ⟨by decide, by decide, by decide⟩

/-- Claim C7 (amended): for a numeric text field, validation rejects a raw
string exactly when ECMAScript parseFloat yields NaN on it, that is, when
the string has no parseable decimal prefix after optional whitespace and
sign; the raw input abc fails, the raw input 42 is accepted and coerced to
the number 42, but malformed text that begins with a parseable prefix, such
as 42abc, is accepted and coerced to the value of that prefix rather than
rejected. The hypotheses confine the statement to inputs on which the
earlier checks of validate do not fire first. -/
theorem c7_amended_numeric_validation :
    jsParseFloat "abc" = JSNum.nan
    ∧ jsParseFloat "42" = JSNum.finite 42
    ∧ ∀ (field : Field) (s : String),
        field.is_num = true → field.required = false → field.field_type = FieldType.text →
        jsTrim s ≠ "" → s.length ≤ 1000 →
        ((validateField field (some (RecordValue.str s)) = some "Must be a valid number"
            ↔ jsParseFloat s = JSNum.nan)
          ∧ (jsParseFloat s ≠ JSNum.nan →
              validateField field (some (RecordValue.str s)) = none
              ∧ processField field (some (RecordValue.str s)) =
                  some (RecordValue.num (jsParseFloat s)))) := by
  refine ⟨by decide, by decide, ?_⟩
  intro field s hnum hreq hft htrim hlen
  have hsne : s ≠ "" := fun h => htrim (by rw [h]; rfl)
  have h1 : ¬ ((jsTrim s).length < 1) := by
    intro h0
    apply htrim
    have h2 : (jsTrim s).data.length = 0 := by
      have h3 : (jsTrim s).length = (jsTrim s).data.length := rfl
      omega
    exact String.ext (List.length_eq_zero.mp h2)
  have h2 : ¬ (1000 < s.length) := by omega
  simp only [validateField, processField, hnum, hreq, hft, optTruthy, jsTruthy, isStrVal,
    strValOf]
  simp [hsne, h1, h2]

/-- Witness for the amended claim C7 at the concrete raw input 42 on a
concrete numeric text field. -/
theorem c7_witness :
    (validateField
          { id := 1, form_id := 1, name := "age", field_type := FieldType.text,
            options := none, required := false, is_num := true, order_index := 0,
            username := "u" }
          (some (RecordValue.str "42")) = some "Must be a valid number"
        ↔ jsParseFloat "42" = JSNum.nan)
    ∧ (jsParseFloat "42" ≠ JSNum.nan →
        validateField
            { id := 1, form_id := 1, name := "age", field_type := FieldType.text,
              options := none, required := false, is_num := true, order_index := 0,
              username := "u" }
            (some (RecordValue.str "42")) = none
        ∧ processField
            { id := 1, form_id := 1, name := "age", field_type := FieldType.text,
              options := none, required := false, is_num := true, order_index := 0,
              username := "u" }
            (some (RecordValue.str "42")) = some (RecordValue.num (jsParseFloat "42"))) :=
  c7_amended_numeric_validation.2.2
    { id := 1, form_id := 1, name := "age", field_type := FieldType.text,
      options := none, required := false, is_num := true, order_index := 0,
      username := "u" }
    "42" rfl rfl rfl (by decide) (by decide)

lemma foldl_saveStep_mem (values : String → Option RecordValue) :
    ∀ (fs : List Field) (acc : List (String × RecordValue)) (p : String × RecordValue),
      p ∈ fs.foldl (saveStep values) acc →
      p ∈ acc ∨ (p.2 ≠ RecordValue.null ∧ p.2 ≠ RecordValue.str "") := by
  intro fs
  induction fs with
  | nil => intro acc p hp; exact Or.inl hp
  | cons f t ih =>
    intro acc p hp
    rcases ih (saveStep values acc f) p hp with h | h
    · cases hpf : processField f (values f.name) with
      | none =>
        have hsave : saveStep values acc f = acc := by
          unfold saveStep; rw [hpf]
        rw [hsave] at h; exact Or.inl h
      | some w =>
        have hsave : saveStep values acc f =
            if w = RecordValue.null ∨ w = RecordValue.str "" then acc
            else acc ++ [(f.name, w)] := by
          unfold saveStep; rw [hpf]
        rw [hsave] at h
        by_cases hw : w = RecordValue.null ∨ w = RecordValue.str ""
        · rw [if_pos hw] at h; exact Or.inl h
        · rw [if_neg hw] at h
          rcases List.mem_append.mp h with h2 | h2
          · exact Or.inl h2
          · right
            have hpw : p = (f.name, w) := by simpa using h2
            rw [hpw]
            push_neg at hw
            exact hw
    · exact Or.inr h

/-- Claim C10: the value map assembled at record-save time never contains an
entry whose value is null or the empty string; an absent (undefined) value
is skipped by the same guard and is not representable as a stored entry in
this model. -/
theorem c10_processed_values_no_empty (fields : List Field)
    (values : String → Option RecordValue) (n : String) (w : RecordValue)
    (h : (n, w) ∈ processedValues fields values) :
    w ≠ RecordValue.null ∧ w ≠ RecordValue.str "" := by
  rcases foldl_saveStep_mem values fields [] (n, w) h with h2 | h2
  · simp at h2
  · exact h2

/-- Witness for C10 at a concrete one-field save producing one stored
entry. -/
theorem c10_witness :
    RecordValue.str "x" ≠ RecordValue.null ∧ RecordValue.str "x" ≠ RecordValue.str "" :=
  c10_processed_values_no_empty
    [{ id := 1, form_id := 1, name := "a", field_type := FieldType.text,
       options := none, required := false, is_num := false, order_index := 0,
       username := "u" }]
    (fun nm => if nm = "a" then some (RecordValue.str "x") else none)
    "a" (RecordValue.str "x") (by decide)

end FormBase
